import Mathlib

/-!
Verification of the mapping-rs core against its specification.

This file gives a shallow embedding, in Lean 4, of the parts of the
mapping-rs repository that the specification's testable claims are about:

* the k-d tree (`src/crates/algorithms/src/kd_tree/mod.rs`),
* the naive nearest-neighbour scans
  (`src/crates/algorithms/src/utils/point_cloud.rs` and
  `src/crates/mapping-algorithms/src/point_clouds/nearest_neighbour.rs`),
* the ICP registration pipeline
  (`src/crates/algorithms/src/point_clouds/icp/mod.rs` together with the
  helpers of `src/crates/algorithms/src/icp/helpers.rs`),
* the occupancy grid map
  (`src/crates/suites/src/hector_mapper/grid_map.rs`),
* the incremental mapper
  (`src/crates/suites/src/hector_mapper/mod.rs` and `builder.rs`),
* the determinant correction of the SVD alignment step
  (`verify_rotation_matrix_determinant`, whose body is not part of the
  sources at hand and is therefore modelled from the specification).

Scalars (`f32`/`f64` in the source) are modelled as exact rationals `ℚ`;
a point `Point<T, N>` becomes a function `Fin n → ℚ`.  Where the source's
behaviour around IEEE special values matters (the NaN check on the absolute
MSE threshold), a dedicated scalar type with a NaN element is used.
-/

/-- A point of `N`-dimensional space, `nalgebra::Point<T, N>` with the scalar
type instantiated at exact rationals. -/
def Pt (n : Nat) : Type := Fin n → ℚ

instance (n : Nat) : DecidableEq (Pt n) := by
  unfold Pt; infer_instance

instance (n : Nat) : Inhabited (Pt n) := ⟨fun _ => 0⟩

/-- Squared Euclidean distance between two points, `distance_squared` of
`src/crates/algorithms/src/utils/mod.rs` (the norm of the difference,
squared, which over exact arithmetic is the sum of the squared coordinate
differences). -/
def distSq {n : Nat} (a b : Pt n) : ℚ :=
  ∑ i : Fin n, (a i - b i) ^ 2

theorem distSq_nonneg {n : Nat} (a b : Pt n) : 0 ≤ distSq a b :=
  Finset.sum_nonneg fun _ _ => sq_nonneg _

/-- A single squared coordinate difference is at most the squared distance. -/
theorem sq_coord_le_distSq {n : Nat} (a b : Pt n) (i : Fin n) :
    (a i - b i) ^ 2 ≤ distSq a b :=
  Finset.single_le_sum (f := fun j => (a j - b j) ^ 2)
    (fun _ _ => sq_nonneg _) (Finset.mem_univ i)

/-- The dimension index `depth % N` used by the k-d tree at a given depth. -/
def dimAt (n : Nat) [NeZero n] (depth : Nat) : Fin n :=
  ⟨depth % n, Nat.mod_lt _ (Nat.pos_of_ne_zero (NeZero.ne n))⟩

/-- The k-d tree of `src/crates/algorithms/src/kd_tree/mod.rs`.  The Rust
`KDTree` holds an `Option<KDNode>` root and each `KDNode` holds
`Option<Box<KDNode>>` children; collapsing `Option` into the tree type,
`nil` stands for an absent node and `node` for a `KDNode` with its
`internal_data` and its `left` and `right` children. -/
inductive KDTree (n : Nat) where
  | nil : KDTree n
  | node (data : Pt n) (left right : KDTree n) : KDTree n

/-- KDNode::insert (with `KDTree::insert`'s empty-root case folded in as the
`nil` case): descend left on a strictly smaller coordinate at the current
dimension, right otherwise, and create a leaf where the chosen branch is
absent. -/
def KDTree.insert {n : Nat} [NeZero n] : KDTree n → Pt n → Nat → KDTree n
  | .nil, data, _ => .node data .nil .nil
  | .node d l r, data, depth =>
    if data (dimAt n depth) < d (dimAt n depth) then
      .node d (l.insert data (depth + 1)) r
    else
      .node d l (r.insert data (depth + 1))

/-- Building a tree from a point cloud: `impl From<&[Point<T, N>]> for KDTree`
folds `insert` over the slice starting from the empty tree. -/
def KDTree.fromList {n : Nat} [NeZero n] (pts : List (Pt n)) : KDTree n :=
  pts.foldl (fun t p => t.insert p 0) .nil

/-- In-order point list of a tree, as visited by `traverse_branch`. -/
def KDTree.toList {n : Nat} : KDTree n → List (Pt n)
  | .nil => []
  | .node d l r => l.toList ++ d :: r.toList

/-- The initial candidate of `KDNode::nearest`: the nearer branch's answer,
defaulted to this node's point (`unwrap_or(self.internal_data)`), replaced
by this node's point when that is strictly closer. -/
def bestOf {n : Nat} (d target : Pt n) (nextRes : Option (Pt n)) : Pt n :=
  let best0 := nextRes.getD d
  if distSq d target < distSq best0 target then d else best0

/-- The pure combination step of `KDNode::nearest`, once the recursive
results for the same-side (`next_branch`) and opposite (`opposite_branch`)
subtrees are given: start from `bestOf`'s candidate and consult the
opposite branch's answer only when the squared distance to the splitting
plane is smaller than the squared distance to the current best.  The
opposite branch's answer is taken here as a value; evaluating it eagerly is
observationally identical to the source's lazy backtracking since the
search is pure. -/
def nearestStep {n : Nat} (d target : Pt n) (dim : Fin n)
    (nextRes oppRes : Option (Pt n)) : Option (Pt n) :=
  let best := bestOf d target nextRes
  let axisDistance := target dim - d dim
  if axisDistance * axisDistance < distSq best target then
    match oppRes with
    | some oppositeBest =>
      if distSq oppositeBest target < distSq best target then some oppositeBest
      else some best
    | none => some best
  else some best

/-- KDNode::nearest (with `KDTree::nearest`'s empty-root case as `nil`):
choose the branch on the same side of the splitting plane as the target,
recurse, and combine with `nearestStep`. -/
def KDTree.nearest {n : Nat} [NeZero n] : KDTree n → Pt n → Nat → Option (Pt n)
  | .nil, _, _ => none
  | .node d l r, target, depth =>
    if target (dimAt n depth) < d (dimAt n depth) then
      nearestStep d target (dimAt n depth)
        (l.nearest target (depth + 1)) (r.nearest target (depth + 1))
    else
      nearestStep d target (dimAt n depth)
        (r.nearest target (depth + 1)) (l.nearest target (depth + 1))

/-- The k-d ordering invariant at a given depth: on the discriminating
dimension, every point of the left subtree is strictly smaller than this
node's point and no point of the right subtree is, and both subtrees
satisfy the invariant one level deeper.  `insert` establishes it and
`nearest` relies on it. -/
def KDTree.Inv {n : Nat} [NeZero n] : KDTree n → Nat → Prop
  | .nil, _ => True
  | .node d l r, depth =>
    (∀ p ∈ l.toList, p (dimAt n depth) < d (dimAt n depth)) ∧
    (∀ p ∈ r.toList, ¬ p (dimAt n depth) < d (dimAt n depth)) ∧
    l.Inv (depth + 1) ∧ r.Inv (depth + 1)

theorem KDTree.mem_toList_insert {n : Nat} [NeZero n] (t : KDTree n)
    (p : Pt n) (depth : Nat) (x : Pt n) :
    x ∈ (t.insert p depth).toList ↔ x = p ∨ x ∈ t.toList := by
  induction t generalizing depth with
  | nil => simp [insert, toList]
  | node d l r ihl ihr =>
    by_cases h : p (dimAt n depth) < d (dimAt n depth) <;>
      simp [insert, h, toList, ihl, ihr] <;> tauto

theorem KDTree.insert_inv {n : Nat} [NeZero n] (t : KDTree n) (p : Pt n)
    (depth : Nat) (h : t.Inv depth) : (t.insert p depth).Inv depth := by
  induction t generalizing depth with
  | nil => simp [insert, Inv, toList]
  | node d l r ihl ihr =>
    obtain ⟨hl, hr, hil, hir⟩ := h
    by_cases hc : p (dimAt n depth) < d (dimAt n depth)
    · simp only [insert, if_pos hc, Inv]
      refine ⟨?_, hr, ihl _ hil, hir⟩
      intro q hq
      rcases (mem_toList_insert l p (depth + 1) q).mp hq with rfl | hq
      · exact hc
      · exact hl q hq
    · simp only [insert, if_neg hc, Inv]
      refine ⟨hl, ?_, hil, ihr _ hir⟩
      intro q hq
      rcases (mem_toList_insert r p (depth + 1) q).mp hq with rfl | hq
      · exact hc
      · exact hr q hq

theorem bestOf_le_self {n : Nat} (d target : Pt n) (nextRes : Option (Pt n)) :
    distSq (bestOf d target nextRes) target ≤ distSq d target := by
  rcases nextRes with _ | p <;> simp only [bestOf, Option.getD]
  · split <;> exact le_refl _
  · split
    · exact le_refl _
    · exact le_of_not_lt (by assumption)

theorem bestOf_eq_or {n : Nat} (d target : Pt n) (nextRes : Option (Pt n)) :
    bestOf d target nextRes = d ∨ ∃ p, nextRes = some p ∧ bestOf d target nextRes = p := by
  rcases nextRes with _ | p <;> simp only [bestOf, Option.getD]
  · split <;> exact Or.inl rfl
  · split
    · exact Or.inl rfl
    · exact Or.inr ⟨p, rfl, rfl⟩

theorem bestOf_min {n : Nat} (d target : Pt n) (nextRes : Option (Pt n))
    (nextList : List (Pt n))
    (hnone : nextRes = none → nextList = [])
    (hsome : ∀ p, nextRes = some p →
      ∀ x ∈ nextList, distSq p target ≤ distSq x target) :
    ∀ x ∈ nextList, distSq (bestOf d target nextRes) target ≤ distSq x target := by
  intro x hx
  rcases hres : nextRes with _ | p
  · rw [hnone hres] at hx; cases hx
  · have hp := hsome p hres x hx
    simp only [bestOf, hres, Option.getD]
    split
    · exact le_trans (le_of_lt (by assumption)) hp
    · exact hp

theorem nearestStep_spec {n : Nat} (d target : Pt n) (dim : Fin n)
    (nextRes oppRes : Option (Pt n)) (nextList oppList : List (Pt n))
    (hnextNone : nextRes = none → nextList = [])
    (hnextSome : ∀ p, nextRes = some p →
      p ∈ nextList ∧ ∀ x ∈ nextList, distSq p target ≤ distSq x target)
    (hoppNone : oppRes = none → oppList = [])
    (hoppSome : ∀ p, oppRes = some p →
      p ∈ oppList ∧ ∀ x ∈ oppList, distSq p target ≤ distSq x target)
    (hplane : ∀ x ∈ oppList,
      (target dim - d dim) * (target dim - d dim) ≤ distSq x target) :
    ∃ p, nearestStep d target dim nextRes oppRes = some p ∧
      (p = d ∨ p ∈ nextList ∨ p ∈ oppList) ∧
      distSq p target ≤ distSq d target ∧
      (∀ x ∈ nextList, distSq p target ≤ distSq x target) ∧
      (∀ x ∈ oppList, distSq p target ≤ distSq x target) := by
  have hbmem : bestOf d target nextRes = d ∨ bestOf d target nextRes ∈ nextList := by
    rcases bestOf_eq_or d target nextRes with h | ⟨p, hp, hb⟩
    · exact Or.inl h
    · exact Or.inr (hb ▸ (hnextSome p hp).1)
  have hbd := bestOf_le_self d target nextRes
  have hbnext := bestOf_min d target nextRes nextList hnextNone
    (fun p hp => (hnextSome p hp).2)
  simp only [nearestStep]
  by_cases hprune :
      (target dim - d dim) * (target dim - d dim) <
        distSq (bestOf d target nextRes) target
  · rw [if_pos hprune]
    rcases hor : oppRes with _ | ob
    · refine ⟨bestOf d target nextRes, rfl, ?_, hbd, hbnext, ?_⟩
      · tauto
      · intro x hx; rw [hoppNone hor] at hx; cases hx
    · obtain ⟨hobmem, hobmin⟩ := hoppSome ob hor
      dsimp only
      by_cases hob : distSq ob target < distSq (bestOf d target nextRes) target
      · rw [if_pos hob]
        exact ⟨ob, rfl, Or.inr (Or.inr hobmem),
          le_trans (le_of_lt hob) hbd,
          fun x hx => le_trans (le_of_lt hob) (hbnext x hx), hobmin⟩
      · rw [if_neg hob]
        refine ⟨bestOf d target nextRes, rfl, ?_, hbd, hbnext, ?_⟩
        · tauto
        · intro x hx
          exact le_trans (le_of_not_lt hob) (hobmin x hx)
  · rw [if_neg hprune]
    refine ⟨bestOf d target nextRes, rfl, ?_, hbd, hbnext, ?_⟩
    · tauto
    · intro x hx
      exact le_trans (le_of_not_lt hprune) (hplane x hx)

/-- Correctness of the k-d nearest-neighbour search on a tree satisfying the
ordering invariant: on an empty tree the answer is `none`, and otherwise it
is a stored point at minimal squared distance to the target. -/
theorem KDTree.nearest_spec {n : Nat} [NeZero n] (t : KDTree n) :
    ∀ (depth : Nat) (target : Pt n), t.Inv depth →
      (t.nearest target depth = none ∧ t.toList = []) ∨
      (∃ p, t.nearest target depth = some p ∧ p ∈ t.toList ∧
        ∀ x ∈ t.toList, distSq p target ≤ distSq x target) := by
  induction t with
  | nil => intro depth target _; exact Or.inl ⟨rfl, rfl⟩
  | node d l r ihl ihr =>
    intro depth target hinv
    obtain ⟨hl, hr, hil, hir⟩ := hinv
    right
    have ihl' := ihl (depth + 1) target hil
    have ihr' := ihr (depth + 1) target hir
    by_cases hc : target (dimAt n depth) < d (dimAt n depth)
    · -- the target is on the left of the splitting plane; opposite branch is r
      have hplane : ∀ x ∈ r.toList,
          (target (dimAt n depth) - d (dimAt n depth)) *
            (target (dimAt n depth) - d (dimAt n depth)) ≤ distSq x target := by
        intro x hx
        have hxd : d (dimAt n depth) ≤ x (dimAt n depth) := le_of_not_lt (hr x hx)
        have h1 : d (dimAt n depth) - target (dimAt n depth) ≤
            x (dimAt n depth) - target (dimAt n depth) := by linarith
        have h0 : 0 ≤ d (dimAt n depth) - target (dimAt n depth) := by linarith
        have h2 : (d (dimAt n depth) - target (dimAt n depth)) ^ 2 ≤
            (x (dimAt n depth) - target (dimAt n depth)) ^ 2 :=
          pow_le_pow_left₀ h0 h1 2
        have h3 := sq_coord_le_distSq x target (dimAt n depth)
        nlinarith [h2, h3]
      obtain ⟨p, hp, hpmem, hpd, hpnext, hpopp⟩ := nearestStep_spec d target (dimAt n depth)
        (l.nearest target (depth + 1)) (r.nearest target (depth + 1))
        l.toList r.toList
        (fun hn => by rcases ihl' with ⟨_, h⟩ | ⟨q, hq, _⟩
                      · exact h
                      · rw [hn] at hq; cases hq)
        (fun q hq => by rcases ihl' with ⟨h, _⟩ | ⟨q', hq', hm, hmin⟩
                        · rw [h] at hq; cases hq
                        · rw [hq'] at hq; cases hq; exact ⟨hm, hmin⟩)
        (fun hn => by rcases ihr' with ⟨_, h⟩ | ⟨q, hq, _⟩
                      · exact h
                      · rw [hn] at hq; cases hq)
        (fun q hq => by rcases ihr' with ⟨h, _⟩ | ⟨q', hq', hm, hmin⟩
                        · rw [h] at hq; cases hq
                        · rw [hq'] at hq; cases hq; exact ⟨hm, hmin⟩)
        hplane
      refine ⟨p, ?_, ?_, ?_⟩
      · simp only [nearest, if_pos hc]; exact hp
      · simp only [toList, List.mem_append, List.mem_cons]
        rcases hpmem with h | h | h
        · exact Or.inr (Or.inl h)
        · exact Or.inl h
        · exact Or.inr (Or.inr h)
      · intro x hx
        simp only [toList, List.mem_append, List.mem_cons] at hx
        rcases hx with hx | rfl | hx
        · exact hpnext x hx
        · exact hpd
        · exact hpopp x hx
    · -- the target is on the right of the splitting plane; opposite branch is l
      have hplane : ∀ x ∈ l.toList,
          (target (dimAt n depth) - d (dimAt n depth)) *
            (target (dimAt n depth) - d (dimAt n depth)) ≤ distSq x target := by
        intro x hx
        have hxd : x (dimAt n depth) < d (dimAt n depth) := hl x hx
        have hcd : d (dimAt n depth) ≤ target (dimAt n depth) := le_of_not_lt hc
        have h1 : target (dimAt n depth) - d (dimAt n depth) ≤
            target (dimAt n depth) - x (dimAt n depth) := by linarith
        have h0 : 0 ≤ target (dimAt n depth) - d (dimAt n depth) := by linarith
        have h2 : (target (dimAt n depth) - d (dimAt n depth)) ^ 2 ≤
            (target (dimAt n depth) - x (dimAt n depth)) ^ 2 :=
          pow_le_pow_left₀ h0 h1 2
        have h3 := sq_coord_le_distSq x target (dimAt n depth)
        nlinarith [h2, h3]
      obtain ⟨p, hp, hpmem, hpd, hpnext, hpopp⟩ := nearestStep_spec d target (dimAt n depth)
        (r.nearest target (depth + 1)) (l.nearest target (depth + 1))
        r.toList l.toList
        (fun hn => by rcases ihr' with ⟨_, h⟩ | ⟨q, hq, _⟩
                      · exact h
                      · rw [hn] at hq; cases hq)
        (fun q hq => by rcases ihr' with ⟨h, _⟩ | ⟨q', hq', hm, hmin⟩
                        · rw [h] at hq; cases hq
                        · rw [hq'] at hq; cases hq; exact ⟨hm, hmin⟩)
        (fun hn => by rcases ihl' with ⟨_, h⟩ | ⟨q, hq, _⟩
                      · exact h
                      · rw [hn] at hq; cases hq)
        (fun q hq => by rcases ihl' with ⟨h, _⟩ | ⟨q', hq', hm, hmin⟩
                        · rw [h] at hq; cases hq
                        · rw [hq'] at hq; cases hq; exact ⟨hm, hmin⟩)
        hplane
      refine ⟨p, ?_, ?_, ?_⟩
      · simp only [nearest, if_neg hc]; exact hp
      · simp only [toList, List.mem_append, List.mem_cons]
        rcases hpmem with h | h | h
        · exact Or.inr (Or.inl h)
        · exact Or.inr (Or.inr h)
        · exact Or.inl h
      · intro x hx
        simp only [toList, List.mem_append, List.mem_cons] at hx
        rcases hx with hx | rfl | hx
        · exact hpopp x hx
        · exact hpd
        · exact hpnext x hx

theorem distSq_comm {n : Nat} (a b : Pt n) : distSq a b = distSq b a := by
  unfold distSq
  refine Finset.sum_congr rfl fun i _ => ?_
  ring

theorem KDTree.mem_toList_fromList {n : Nat} [NeZero n] (pts : List (Pt n))
    (x : Pt n) : x ∈ (KDTree.fromList pts).toList ↔ x ∈ pts := by
  have key : ∀ (l : List (Pt n)) (t : KDTree n),
      x ∈ (l.foldl (fun t p => t.insert p 0) t).toList ↔ x ∈ l ∨ x ∈ t.toList := by
    intro l
    induction l with
    | nil => intro t; simp
    | cons p ps ih =>
      intro t
      simp only [List.foldl_cons, ih, mem_toList_insert, List.mem_cons]
      tauto
  have := key pts .nil
  simpa [KDTree.fromList, KDTree.toList] using this

theorem KDTree.fromList_inv {n : Nat} [NeZero n] (pts : List (Pt n)) :
    (KDTree.fromList pts).Inv 0 := by
  have key : ∀ (l : List (Pt n)) (t : KDTree n), t.Inv 0 →
      (l.foldl (fun t p => t.insert p 0) t).Inv 0 := by
    intro l
    induction l with
    | nil => intro t ht; exact ht
    | cons p ps ih => intro t ht; exact ih _ (insert_inv t p 0 ht)
  exact key pts .nil trivial

/-- The scan loop shared by `find_closest_point`
(`src/crates/algorithms/src/utils/point_cloud.rs`) and
`find_nearest_neighbour_naive`
(`src/crates/mapping-algorithms/src/point_clouds/nearest_neighbour.rs`):
walk all candidate points, replacing the current best whenever a strictly
smaller squared distance is found.  The running distance starts at
`T::max_value()`, modelled as the top element of `WithTop ℚ`. -/
def fcpLoop {n : Nat} (point : Pt n) :
    List (Pt n) → WithTop ℚ → Pt n → Pt n
  | [], _, currentPoint => currentPoint
  | t :: ts, currentDistance, currentPoint =>
    if (distSq point t : WithTop ℚ) < currentDistance then
      fcpLoop point ts (distSq point t) t
    else
      fcpLoop point ts currentDistance currentPoint

/-- find_closest_point of `src/crates/algorithms/src/utils/point_cloud.rs`:
start from `all_points[0]` with distance `T::max_value()` and scan the whole
slice.  The source asserts the slice non-empty and panics otherwise; the
panic is modelled as `none`. -/
def findClosestPoint {n : Nat} (point : Pt n) :
    List (Pt n) → Option (Pt n)
  | [] => none
  | p0 :: rest => some (fcpLoop point (p0 :: rest) ⊤ p0)

/-- find_nearest_neighbour_naive of
`src/crates/mapping-algorithms/src/point_clouds/nearest_neighbour.rs`: the
same scan, returning `None` on an empty slice. -/
def findNearestNeighbourNaive {n : Nat} (point : Pt n)
    (allPoints : List (Pt n)) : Option (Pt n) :=
  match allPoints with
  | [] => none
  | p0 :: rest => some (fcpLoop point (p0 :: rest) ⊤ p0)

theorem fcpLoop_spec {n : Nat} (point : Pt n) :
    ∀ (l : List (Pt n)) (curD : WithTop ℚ) (curP : Pt n),
      (curD = ⊤ ∨ curD = (distSq point curP : WithTop ℚ)) →
      (fcpLoop point l curD curP = curP ∨ fcpLoop point l curD curP ∈ l) ∧
      (distSq point (fcpLoop point l curD curP) : WithTop ℚ) ≤ curD ∧
      (∀ x ∈ l, (distSq point (fcpLoop point l curD curP) : WithTop ℚ) ≤
        (distSq point x : WithTop ℚ)) := by
  intro l
  induction l with
  | nil =>
    intro curD curP h
    refine ⟨Or.inl rfl, ?_, by simp⟩
    rcases h with rfl | rfl
    · exact le_top
    · exact le_refl _
  | cons t ts ih =>
    intro curD curP h
    by_cases hlt : (distSq point t : WithTop ℚ) < curD
    · have := ih (distSq point t) t (Or.inr rfl)
      simp only [fcpLoop, if_pos hlt]
      refine ⟨?_, ?_, ?_⟩
      · rcases this.1 with h1 | h1
        · rw [h1]; exact Or.inr (List.mem_cons_self t ts)
        · exact Or.inr (List.mem_cons_of_mem t h1)
      · exact le_trans this.2.1 (le_of_lt hlt)
      · intro x hx
        rcases List.mem_cons.mp hx with rfl | hx
        · exact this.2.1
        · exact this.2.2 x hx
    · have := ih curD curP h
      simp only [fcpLoop, if_neg hlt]
      refine ⟨?_, this.2.1, ?_⟩
      · rcases this.1 with h1 | h1
        · exact Or.inl h1
        · exact Or.inr (List.mem_cons_of_mem t h1)
      · intro x hx
        rcases List.mem_cons.mp hx with rfl | hx
        · exact le_trans this.2.1 (le_of_not_lt hlt)
        · exact this.2.2 x hx

/-- The linear scan returns a stored point of minimal squared distance. -/
theorem findClosestPoint_spec {n : Nat} (point : Pt n) (pts : List (Pt n))
    (hne : pts ≠ []) :
    ∃ fp, findClosestPoint point pts = some fp ∧ fp ∈ pts ∧
      ∀ x ∈ pts, distSq point fp ≤ distSq point x := by
  rcases pts with _ | ⟨p0, rest⟩
  · exact absurd rfl hne
  · have h := fcpLoop_spec point (p0 :: rest) ⊤ p0 (Or.inl rfl)
    refine ⟨fcpLoop point (p0 :: rest) ⊤ p0, rfl, ?_, ?_⟩
    · rcases h.1 with h1 | h1
      · rw [h1]; exact List.mem_cons_self p0 rest
      · exact h1
    · intro x hx
      exact_mod_cast h.2.2 x hx

/-- C1: for every finite point set (exact coordinates, hence no NaN/Inf) and
every query point, the k-d tree built by inserting the points answers
`nearest(q)` equal to the result of the exhaustive linear scan
`find_closest_point`: the returned point is a member of the set at minimal
(squared, hence also plain) Euclidean distance to the query, and its
distance agrees with the linear scan's result. -/
theorem kd_nearest_matches_linear_scan {n : Nat} [NeZero n]
    (pts : List (Pt n)) (q : Pt n) (hne : pts ≠ []) :
    ∃ p fp, (KDTree.fromList pts).nearest q 0 = some p ∧
      findClosestPoint q pts = some fp ∧
      p ∈ pts ∧
      (∀ x ∈ pts, distSq p q ≤ distSq x q) ∧
      distSq p q = distSq fp q := by
  have hspec := (KDTree.fromList pts).nearest_spec 0 q (KDTree.fromList_inv pts)
  rcases hspec with ⟨_, hempty⟩ | ⟨p, hp, hpmem, hpmin⟩
  · exfalso
    rcases pts with _ | ⟨p0, rest⟩
    · exact hne rfl
    · have : p0 ∈ (KDTree.fromList (p0 :: rest)).toList :=
        (KDTree.mem_toList_fromList _ _).mpr (List.mem_cons_self p0 rest)
      rw [hempty] at this
      cases this
  · obtain ⟨fp, hfp, hfpmem, hfpmin⟩ := findClosestPoint_spec q pts hne
    have hpmem' : p ∈ pts := (KDTree.mem_toList_fromList pts p).mp hpmem
    have hpmin' : ∀ x ∈ pts, distSq p q ≤ distSq x q := fun x hx =>
      hpmin x ((KDTree.mem_toList_fromList pts x).mpr hx)
    refine ⟨p, fp, hp, hfp, hpmem', hpmin', le_antisymm ?_ ?_⟩
    · exact hpmin' fp hfpmem
    · calc distSq fp q = distSq q fp := distSq_comm fp q
        _ ≤ distSq q p := hfpmin p hpmem'
        _ = distSq p q := distSq_comm q p

/-- Witness for C1: the theorem applied to a concrete two-point cloud in 2D. -/
theorem kd_nearest_matches_linear_scan_witness :
    ([![(3 : ℚ), 3], ![1, 1]] : List (Pt 2)) ≠ [] ∧
    (∃ p fp,
      (KDTree.fromList ([![(3 : ℚ), 3], ![1, 1]] : List (Pt 2))).nearest ![0, 0] 0 = some p ∧
      findClosestPoint ![0, 0] ([![(3 : ℚ), 3], ![1, 1]] : List (Pt 2)) = some fp ∧
      p ∈ ([![(3 : ℚ), 3], ![1, 1]] : List (Pt 2)) ∧
      (∀ x ∈ ([![(3 : ℚ), 3], ![1, 1]] : List (Pt 2)),
        distSq p ![0, 0] ≤ distSq x ![0, 0]) ∧
      distSq p ![0, 0] = distSq fp ![0, 0]) :=
  ⟨by simp, kd_nearest_matches_linear_scan _ _ (by simp)⟩

/-- An occupancy cell of `src/crates/suites/src/hector_mapper/grid_map.rs`:
`odds` is the log-odds value and `update_frame_idx` the `u8` tag of the
last frame that touched the cell (`Cell::default()` is `⟨0, 0⟩`). -/
structure Cell where
  odds : ℚ
  updateFrameIdx : Nat
  deriving DecidableEq

/-- The grid map state of `grid_map.rs`: a flat cell array, per-dimension
strides, the two log-odds update factors and the saturation bound. -/
structure GridMap (n : Nat) where
  data : List Cell
  strides : Fin n → Nat
  confidencePosFactor : ℚ
  confidenceNegFactor : ℚ
  maxConfidence : ℚ

/-- The modulus of `usize` arithmetic on the 64-bit targets the crate is
built for: multiplication and addition of indices wrap at `2^64` in release
builds (a debug build would panic on the overflow instead; the model
follows the release semantics). -/
def usizeMod : Nat := 2 ^ 64

/-- The stride array of `GridMap::create`: entry `idx` is the product of the
first `idx` dimensions (`dimensions.iter().take(idx).product()`, the empty
product being `1`), computed in `usize` and hence reduced modulo `2^64`. -/
def mkStrides (n : Nat) (dimensions : Fin n → Nat) : Fin n → Nat :=
  fun i => (∏ j ∈ Finset.univ.filter (fun j : Fin n => (j : Nat) < (i : Nat)),
    dimensions j) % usizeMod

/-- GridMap::create: a default-initialised cell per grid coordinate (the
`usize` product of the dimensions) and the strides above.  The source
derives the two confidence factors as `ln(f - 1/f)` of the occupied/free
confidence factors; since the natural logarithm has no exact rational
counterpart the factors enter the model as the already-computed log-odds
values (no claim under verification depends on the `ln` formula itself). -/
def GridMap.create (n : Nat) (dimensions : Fin n → Nat)
    (confidencePosFactor confidenceNegFactor maxConfidence : ℚ) : GridMap n :=
  { data := List.replicate ((∏ i, dimensions i) % usizeMod) ⟨0, 0⟩
    strides := mkStrides n dimensions
    confidencePosFactor := confidencePosFactor
    confidenceNegFactor := confidenceNegFactor
    maxConfidence := maxConfidence }

/-- GridMap::get_cell_coord: the flattened index, the sum over dimensions of
coordinate times stride, computed in `usize`.  Since reduction modulo
`2^64` commutes with sums and products, wrapping each `coord * stride` and
each addition individually yields exactly the whole sum reduced once. -/
def GridMap.getCellCoord {n : Nat} (g : GridMap n) (point : Fin n → Nat) : Nat :=
  (∑ i : Fin n, point i * g.strides i) % usizeMod

/-- GridMap::update_taken: via the checked `get_mut`, do nothing when the
flattened index is out of bounds; otherwise, when the cell is below the
saturation bound, add both factors if the cell was already touched in this
frame (revoking the free-space decrement of the earlier ray pass), else
record the frame and add the positive factor. -/
def GridMap.updateTaken {n : Nat} (g : GridMap n) (point : Fin n → Nat)
    (updateFrameIdx : Nat) : GridMap n :=
  let cellIdx := g.getCellCoord point
  match g.data.get? cellIdx with
  | none => g
  | some cell =>
    if cell.odds < g.maxConfidence then
      if cell.updateFrameIdx = updateFrameIdx then
        { g with
            data := g.data.set cellIdx
              ({ cell with odds :=
                cell.odds + (g.confidencePosFactor + g.confidenceNegFactor) }) }
      else
        { g with
            data := g.data.set cellIdx
              (⟨cell.odds + g.confidencePosFactor, updateFrameIdx⟩ : Cell) }
    else g

/-- GridMap::update_free: via the checked `get_mut`, do nothing when the
flattened index is out of bounds; otherwise, the first time the cell is
touched in a given frame, subtract the negative factor and record the
frame; repeated touches in the same frame are ignored. -/
def GridMap.updateFree {n : Nat} (g : GridMap n) (point : Fin n → Nat)
    (updateFrameIdx : Nat) : GridMap n :=
  let cellIdx := g.getCellCoord point
  match g.data.get? cellIdx with
  | none => g
  | some cell =>
    if cell.updateFrameIdx ≠ updateFrameIdx then
      { g with
          data := g.data.set cellIdx
            (⟨cell.odds - g.confidenceNegFactor, updateFrameIdx⟩ : Cell) }
    else g

/-- GridMap::get_cell_probability: the checked cell lookup mapped through the
log-odds to probability conversion `exp(odds) / (exp(odds) + 1)`.  The
conversion uses the real exponential, hence the definition is
noncomputable; every claim about it concerns only the `Option` structure. -/
noncomputable def GridMap.getCellProbability {n : Nat} (g : GridMap n)
    (point : Fin n → Nat) : Option ℝ :=
  (g.data.get? (g.getCellCoord point)).map fun cell =>
    Real.exp (cell.odds : ℝ) / (Real.exp (cell.odds : ℝ) + 1)

/-- A call against the grid: `update_taken` or `update_free` at a point,
tagged with a frame index. -/
inductive GridOp (n : Nat) where
  | taken (point : Fin n → Nat) (frame : Nat) : GridOp n
  | free (point : Fin n → Nat) (frame : Nat) : GridOp n

def applyGridOp {n : Nat} (g : GridMap n) : GridOp n → GridMap n
  | .taken point frame => g.updateTaken point frame
  | .free point frame => g.updateFree point frame

def applyGridOps {n : Nat} (g : GridMap n) (ops : List (GridOp n)) : GridMap n :=
  ops.foldl applyGridOp g

/-- C7: the `occupied_update` postcondition.  On a cell below the saturation
bound, a repeated touch in the same frame adds both factors and leaves the
recorded frame unchanged; a first touch in a new frame adds the positive
factor and records the frame; at or above the bound the call is a no-op. -/
theorem updateTaken_postcondition {n : Nat} (g : GridMap n)
    (point : Fin n → Nat) (frame : Nat) (cell : Cell)
    (hcell : g.data.get? (g.getCellCoord point) = some cell) :
    (g.maxConfidence ≤ cell.odds → g.updateTaken point frame = g) ∧
    (cell.odds < g.maxConfidence → cell.updateFrameIdx = frame →
      g.updateTaken point frame = { g with
        data := g.data.set (g.getCellCoord point)
          ({ cell with odds :=
            cell.odds + (g.confidencePosFactor + g.confidenceNegFactor) }) }) ∧
    (cell.odds < g.maxConfidence → cell.updateFrameIdx ≠ frame →
      g.updateTaken point frame = { g with
        data := g.data.set (g.getCellCoord point)
          (⟨cell.odds + g.confidencePosFactor, frame⟩ : Cell) }) := by
  refine ⟨?_, ?_, ?_⟩
  · intro h1
    simp only [GridMap.updateTaken, hcell, if_neg (not_lt.mpr h1)]
  · intro h1 h2
    simp only [GridMap.updateTaken, hcell, if_pos h1, if_pos h2]
  · intro h1 h2
    simp only [GridMap.updateTaken, hcell, if_pos h1, if_neg h2]

/-- Witness for C7: the third branch on a fresh one-cell grid. -/
theorem updateTaken_postcondition_witness :
    ((GridMap.create 1 ![1] (1/4) (1/8) 10).data.get?
        ((GridMap.create 1 ![1] (1/4) (1/8) 10).getCellCoord ![0]) =
      some ⟨0, 0⟩) ∧
    ((GridMap.create 1 ![1] (1/4) (1/8) 10).updateTaken ![0] 1).data =
      [⟨1/4, 1⟩] := by
  have hcell : (GridMap.create 1 ![1] (1/4) (1/8) 10).data.get?
      ((GridMap.create 1 ![1] (1/4) (1/8) 10).getCellCoord ![0]) =
        some ⟨0, 0⟩ := by
    simp [GridMap.create, GridMap.getCellCoord, mkStrides, usizeMod, Fin.prod_univ_one]
  have h := (updateTaken_postcondition (GridMap.create 1 ![1] (1/4) (1/8) 10)
      ![0] 1 ⟨0, 0⟩ hcell).2.2 (by norm_num [GridMap.create]) (by decide)
  refine ⟨hcell, ?_⟩
  rw [h]
  norm_num [GridMap.create, GridMap.getCellCoord, mkStrides, usizeMod, Fin.prod_univ_one]

theorem applyGridOp_fields {n : Nat} (g : GridMap n) (op : GridOp n) :
    (applyGridOp g op).confidencePosFactor = g.confidencePosFactor ∧
    (applyGridOp g op).confidenceNegFactor = g.confidenceNegFactor ∧
    (applyGridOp g op).maxConfidence = g.maxConfidence := by
  rcases op with ⟨point, frame⟩ | ⟨point, frame⟩ <;>
    simp only [applyGridOp, GridMap.updateTaken, GridMap.updateFree] <;>
    rcases h : g.data.get? (g.getCellCoord point) with _ | cell <;>
    simp only [] <;>
    repeat' first
      | exact ⟨rfl, rfl, rfl⟩
      | exact ⟨trivial, trivial, trivial⟩
      | split

/-- Every cell of the grid is strictly below the saturation bound plus one
largest possible per-call increment. -/
def GridMap.OddsBounded {n : Nat} (g : GridMap n) : Prop :=
  ∀ c ∈ g.data,
    c.odds < g.maxConfidence + g.confidencePosFactor + g.confidenceNegFactor

theorem applyGridOp_oddsBounded {n : Nat} (g : GridMap n) (op : GridOp n)
    (hneg : 0 ≤ g.confidenceNegFactor)
    (h : g.OddsBounded) : (applyGridOp g op).OddsBounded := by
  obtain ⟨hf1, hf2, hf3⟩ := applyGridOp_fields g op
  unfold GridMap.OddsBounded
  rw [hf1, hf2, hf3]
  rcases op with ⟨point, frame⟩ | ⟨point, frame⟩ <;>
    simp only [applyGridOp, GridMap.updateTaken, GridMap.updateFree] <;>
    rcases hc : g.data.get? (g.getCellCoord point) with _ | cell
  · exact h
  · have hmem : cell ∈ g.data := List.get?_mem hc
    have hbound := h cell hmem
    simp only []
    split
    · split
      · intro c hcmem
        rcases List.mem_or_eq_of_mem_set hcmem with hm | rfl
        · exact h c hm
        · simp only []
          linarith [lt_of_lt_of_le (by assumption : cell.odds < g.maxConfidence)
            (le_refl g.maxConfidence)]
      · intro c hcmem
        rcases List.mem_or_eq_of_mem_set hcmem with hm | rfl
        · exact h c hm
        · simp only []
          linarith [(by assumption : cell.odds < g.maxConfidence)]
    · exact h
  · exact h
  · have hmem : cell ∈ g.data := List.get?_mem hc
    have hbound := h cell hmem
    simp only []
    split
    · intro c hcmem
      rcases List.mem_or_eq_of_mem_set hcmem with hm | rfl
      · exact h c hm
      · simp only []
        linarith
    · exact h

theorem applyGridOps_fields {n : Nat} (g : GridMap n) (ops : List (GridOp n)) :
    (applyGridOps g ops).confidencePosFactor = g.confidencePosFactor ∧
    (applyGridOps g ops).confidenceNegFactor = g.confidenceNegFactor ∧
    (applyGridOps g ops).maxConfidence = g.maxConfidence := by
  induction ops generalizing g with
  | nil => exact ⟨rfl, rfl, rfl⟩
  | cons op ops ih =>
    obtain ⟨h1, h2, h3⟩ := applyGridOp_fields g op
    obtain ⟨i1, i2, i3⟩ := ih (applyGridOp g op)
    exact ⟨i1.trans h1, i2.trans h2, i3.trans h3⟩

/-- C5 (amended): with nonnegative update factors, any sequence of
`occupied_update` and `free_update` calls keeps every cell's log-odds
strictly below `max_confidence + positive_factor + negative_factor`
whenever it starts that way (in particular starting from the fresh grid
whenever that bound is positive); the log-odds can however exceed
`max_confidence` itself by up to one increment, because the source only
refuses to update a cell already at or above `max_confidence` and never
clamps the result of the addition. -/
theorem occupied_update_bounded {n : Nat} (g : GridMap n)
    (ops : List (GridOp n))
    (hneg : 0 ≤ g.confidenceNegFactor)
    (hinit : ∀ c ∈ g.data, c.odds <
      g.maxConfidence + g.confidencePosFactor + g.confidenceNegFactor) :
    ∀ c ∈ (applyGridOps g ops).data, c.odds <
      g.maxConfidence + g.confidencePosFactor + g.confidenceNegFactor := by
  have key : ∀ (ops : List (GridOp n)) (g : GridMap n),
      0 ≤ g.confidenceNegFactor → g.OddsBounded →
      (applyGridOps g ops).OddsBounded := by
    intro ops
    induction ops with
    | nil => intro g _ h; exact h
    | cons op ops ih =>
      intro g hneg h
      obtain ⟨_, h2, _⟩ := applyGridOp_fields g op
      exact ih (applyGridOp g op) (h2 ▸ hneg) (applyGridOp_oddsBounded g op hneg h)
  obtain ⟨f1, f2, f3⟩ := applyGridOps_fields g ops
  have := key ops g hneg hinit
  unfold GridMap.OddsBounded at this
  rw [f1, f2, f3] at this
  exact this

/-- Witness for C5's amended bound: ten repeated `occupied_update` calls on a
fresh one-cell grid with both factors `1` and maximum confidence `1/2` keep
the log-odds below `1/2 + 1 + 1`. -/
theorem occupied_update_bounded_witness :
    (0 : ℚ) ≤ (GridMap.create 1 ![1] 1 1 (1/2)).confidenceNegFactor ∧
    ∀ c ∈ (applyGridOps (GridMap.create 1 ![1] 1 1 (1/2))
        (List.replicate 10 (.taken ![0] 1))).data,
      c.odds < (GridMap.create 1 ![1] 1 1 (1/2)).maxConfidence +
        (GridMap.create 1 ![1] 1 1 (1/2)).confidencePosFactor +
        (GridMap.create 1 ![1] 1 1 (1/2)).confidenceNegFactor := by
  constructor
  · norm_num [GridMap.create]
  · refine occupied_update_bounded _ _ (by norm_num [GridMap.create]) ?_
    intro c hc
    simp only [GridMap.create, usizeMod, Fin.prod_univ_one] at hc ⊢
    simp at hc
    rw [hc]
    norm_num

/-- C5 counterexample: the claim that the log-odds never exceeds the
configured maximum confidence is false.  On a fresh one-cell grid with
positive factor `1` and maximum confidence `1/2`, a single
`occupied_update` drives the cell's log-odds to `1 > 1/2`: the source
checks the bound only before the addition and never clamps after it. -/
theorem occupied_update_exceeds_max_counterexample :
    ((GridMap.create 1 ![1] 1 1 (1/2)).updateTaken ![0] 1).data = [⟨1, 1⟩] ∧
    (GridMap.create 1 ![1] 1 1 (1/2)).maxConfidence < 1 := by
  constructor
  · norm_num [GridMap.create, GridMap.updateTaken, GridMap.getCellCoord,
      mkStrides, usizeMod, Fin.prod_univ_one]
  · norm_num [GridMap.create]

/-- C10: the grid operations are total in release builds (no panic; under
debug assertions an overflowing `usize` index computation would panic
instead of wrapping — the model follows the release, wrapping semantics).
Each computes the flattened index as the `usize` sum of coordinate times
stride and goes through the checked `get`: when that (wrapped) index is
past the end of the cell array the update calls leave the grid unchanged
and `get_cell_probability` returns `None`, and `get_cell_probability`
returns a value exactly when the index is in bounds.  Only the flattened
index is bounds-checked, never the individual coordinates: on a `2 × 2`
grid the point `(2, 0)`, out of range in the non-final dimension `0`,
flattens to index `2`, the cell of the valid coordinate `(0, 1)`, and an
`occupied_update` at `(2, 0)` modifies that cell; likewise the point
`(0, 2^63 + 1)` (both coordinates representable `usize` values) wraps,
through the multiplication by stride `2`, onto the same index `2` and
modifies that cell too. -/
theorem grid_flat_index_checked :
    (∀ (n : Nat) (g : GridMap n) (point : Fin n → Nat) (frame : Nat),
        g.data.length ≤ g.getCellCoord point →
        g.updateTaken point frame = g ∧ g.updateFree point frame = g ∧
        g.getCellProbability point = none) ∧
    (∀ (n : Nat) (g : GridMap n) (point : Fin n → Nat),
        (g.getCellProbability point).isSome ↔
          g.getCellCoord point < g.data.length) ∧
    ((2 : Nat) ≤ (![2, 0] : Fin 2 → Nat) 0 ∧
      (GridMap.create 2 ![2, 2] 1 1 10).getCellCoord ![2, 0] =
        (GridMap.create 2 ![2, 2] 1 1 10).getCellCoord ![0, 1] ∧
      (![0, 1] : Fin 2 → Nat) 0 < 2 ∧ (![0, 1] : Fin 2 → Nat) 1 < 2 ∧
      ((GridMap.create 2 ![2, 2] 1 1 10).updateTaken ![2, 0] 1).data.get?
          ((GridMap.create 2 ![2, 2] 1 1 10).getCellCoord ![0, 1]) =
        some ⟨1, 1⟩ ∧
      (GridMap.create 2 ![2, 2] 1 1 10).getCellCoord ![0, 2 ^ 63 + 1] =
        (GridMap.create 2 ![2, 2] 1 1 10).getCellCoord ![0, 1] ∧
      ((GridMap.create 2 ![2, 2] 1 1 10).updateTaken ![0, 2 ^ 63 + 1]
          1).data.get?
          ((GridMap.create 2 ![2, 2] 1 1 10).getCellCoord ![0, 1]) =
        some ⟨1, 1⟩) := by
  refine ⟨?_, ?_, ?_⟩
  · intro n g point frame h
    have hnone : g.data.get? (g.getCellCoord point) = none :=
      List.get?_eq_none.mpr h
    refine ⟨?_, ?_, ?_⟩
    · simp only [GridMap.updateTaken, hnone]
    · simp only [GridMap.updateFree, hnone]
    · simp only [GridMap.getCellProbability, hnone, Option.map_none']
  · intro n g point
    rw [GridMap.getCellProbability, Option.isSome_map']
    constructor
    · intro h
      by_contra hc
      rw [List.get?_eq_none.mpr (not_lt.mp hc)] at h
      cases h
    · intro h
      rw [List.get?_eq_get h]
      rfl
  · refine ⟨by decide, ?_, by decide, by decide, ?_, ?_, ?_⟩
    · simp [GridMap.create, GridMap.getCellCoord, mkStrides, usizeMod,
        Fin.sum_univ_two, Fin.prod_univ_two, Finset.prod_filter]
    · norm_num [GridMap.create, GridMap.updateTaken, GridMap.getCellCoord,
        mkStrides, usizeMod, Fin.sum_univ_two, Fin.prod_univ_two,
        Finset.prod_filter]
    · simp [GridMap.create, GridMap.getCellCoord, mkStrides, usizeMod,
        Fin.sum_univ_two, Fin.prod_univ_two, Finset.prod_filter]
    · norm_num [GridMap.create, GridMap.updateTaken, GridMap.getCellCoord,
        mkStrides, usizeMod, Fin.sum_univ_two, Fin.prod_univ_two,
        Finset.prod_filter]

/-- Witness for C10: the out-of-bounds no-op clause applied to a concrete
one-cell grid and the far-out point `(5)`. -/
theorem grid_flat_index_checked_witness :
    ((GridMap.create 1 ![1] 1 1 10).data.length ≤
      (GridMap.create 1 ![1] 1 1 10).getCellCoord ![5]) ∧
    ((GridMap.create 1 ![1] 1 1 10).updateTaken ![5] 3 =
        GridMap.create 1 ![1] 1 1 10 ∧
      (GridMap.create 1 ![1] 1 1 10).updateFree ![5] 3 =
        GridMap.create 1 ![1] 1 1 10 ∧
      (GridMap.create 1 ![1] 1 1 10).getCellProbability ![5] = none) := by
  have h : (GridMap.create 1 ![1] 1 1 10).data.length ≤
      (GridMap.create 1 ![1] 1 1 10).getCellCoord ![5] := by
    simp [GridMap.create, GridMap.getCellCoord, mkStrides, usizeMod,
      Fin.prod_univ_one, Finset.prod_filter]
  exact ⟨h, grid_flat_index_checked.1 1 _ ![5] 3 h⟩

/-- calculate_point_cloud_center of
`src/crates/algorithms/src/utils/point_cloud.rs` (also re-imported by the
ICP helpers): the origin (`Point::default()`) for an empty cloud, otherwise
the coordinate-wise sum of all points divided by their count. -/
def calculatePointCloudCenter {n : Nat} (points : List (Pt n)) : Pt n :=
  if points.isEmpty then (fun _ => 0)
  else fun i =>
    points.foldl (fun acc it => acc + it i) 0 / (points.length : ℚ)

/-- outer_product of `src/crates/algorithms/src/icp/helpers.rs`: the matrix
with entry `(a_idx, b_idx)` equal to `point_a[a_idx] * point_b[b_idx]`. -/
def outerProduct {n : Nat} (a b : Pt n) : Matrix (Fin n) (Fin n) ℚ :=
  Matrix.of fun i j => a i * b j

/-- get_rotation_matrix_and_centeroids of
`src/crates/algorithms/src/icp/helpers.rs`: both centroids, and the
cross-covariance matrix accumulated as the sum of the outer products of the
centred point pairs. -/
def getRotationMatrixAndCenteroids {n : Nat}
    (transformedPointsA closestPoints : List (Pt n)) :
    Matrix (Fin n) (Fin n) ℚ × Pt n × Pt n :=
  let meanA := calculatePointCloudCenter transformedPointsA
  let meanB := calculatePointCloudCenter closestPoints
  let rotMat := (transformedPointsA.zip closestPoints).foldl
    (fun m pr =>
      m + outerProduct (fun i => pr.1 i - meanA i) (fun i => pr.2 i - meanB i))
    0
  (rotMat, meanA, meanB)

/-- calculate_mse of `src/crates/algorithms/src/icp/helpers.rs`: the SUM of
the squared distances between the zipped point pairs.  Despite its name it
performs no division by the number of pairs; the source's own doc comment
and unit test (`mse = 13.0` for three pairs) confirm the sum. -/
def calculateMse {n : Nat}
    (transformedPointsA closestPointsInB : List (Pt n)) : ℚ :=
  ((transformedPointsA.zip closestPointsInB).map fun pr =>
    distSq pr.1 pr.2).sum

/-- The isometry interface the ICP code is generic over
(`IsometryAbstraction` of `src/crates/algorithms/src/types/mod.rs` /
`AbstractIsometry` of `types/isometry.rs`): an identity, a point transform,
and the SVD-based transform update consuming the two centroids and the
cross-covariance matrix. -/
structure IsometryOps (n : Nat) (Iso : Type) where
  identity : Iso
  transformPoint : Iso → Pt n → Pt n
  updateTransform : Iso → Pt n → Pt n → Matrix (Fin n) (Fin n) ℚ → Iso

/-- The ICPError enum of the current ICP variant
(`src/crates/algorithms/src/point_clouds/icp/mod.rs`), source spellings
kept, including the misspelt `AlrogithmDidNotConverge`. -/
inductive ICPError (n : Nat) where
  | sourcePointCloudEmpty : ICPError n
  | targetPointCloudEmpty : ICPError n
  | iterationNumIsZero : ICPError n
  | mseIntervalThreshold : ICPError n
  | mseAbsoluteThreshold : ICPError n
  | noNearestNeighbour : ICPError n
  | iterationDidNotConverge (meanA meanB : Pt n) : ICPError n
  | alrogithmDidNotConverge : ICPError n
  deriving DecidableEq

/-- ICPSuccess: the accumulated transform, the final MSE value and the
0-based index of the converging iteration. -/
structure ICPSuccess (Iso : Type) where
  transform : Iso
  mse : ℚ
  iterationNum : Nat

/-- ICPConfiguration of the current ICP variant. -/
structure ICPConfiguration where
  useKdTree : Bool
  maxIterations : Nat
  mseAbsoluteThreshold : Option ℚ
  mseIntervalThreshold : ℚ

/-- The correspondence search of `icp_iteration`: for each transformed
source point, the k-d tree lookup when a tree is given, falling back to the
naive scan, collected with a short-circuit on a missing neighbour
(`try_fold` + `ok_or(ICPError::NoNearestNeighbour)`). -/
def closestPointsOf {n : Nat} [NeZero n] (tree : Option (KDTree n))
    (pointsB : List (Pt n)) : List (Pt n) → Option (List (Pt n))
  | [] => some []
  | tp :: rest =>
    match (tree.bind fun t => t.nearest tp 0).orElse
        (fun _ => findNearestNeighbourNaive tp pointsB) with
    | none => none
    | some q => (closestPointsOf tree pointsB rest).map fun qs => q :: qs

/-- The state after one `icp_iteration` call: the three `&mut` parameters
(`transformed_points`, `current_transform`, `current_mse`) as left by the
call, and the returned `Result` (`ok` with the new MSE on convergence). -/
structure IterRes (n : Nat) (Iso : Type) where
  transformed : List (Pt n)
  transform : Iso
  currentMse : ℚ
  out : Except (ICPError n) ℚ

/-- icp_iteration of `src/crates/algorithms/src/point_clouds/icp/mod.rs`:
find correspondences, update the accumulated transform from the centroids
and cross-covariance, re-transform every original source point by the
updated transform, compute the new MSE against this iteration's
correspondences, and converge when the absolute threshold is set and
exceeds the new MSE or when the MSE moved by less than the interval
threshold; otherwise store the new MSE as `current_mse` and report
non-convergence.  On the convergence path the source returns before
writing `current_mse`, so `currentMse` keeps its old value there. -/
def icpIteration {n : Nat} [NeZero n] {Iso : Type} (ops : IsometryOps n Iso)
    (pointsA transformed pointsB : List (Pt n)) (tree : Option (KDTree n))
    (currentTransform : Iso) (currentMse : ℚ)
    (config : ICPConfiguration) : IterRes n Iso :=
  match closestPointsOf tree pointsB transformed with
  | none => ⟨transformed, currentTransform, currentMse, .error .noNearestNeighbour⟩
  | some closest =>
    let rmc := getRotationMatrixAndCenteroids transformed closest
    let newTransform := ops.updateTransform currentTransform rmc.2.1 rmc.2.2 rmc.1
    let newTransformed := pointsA.map (ops.transformPoint newTransform)
    let newMse := calculateMse newTransformed closest
    if (config.mseAbsoluteThreshold.map fun thres =>
          decide (newMse < thres)).getD false
        || decide (|currentMse - newMse| < config.mseIntervalThreshold) then
      ⟨newTransformed, newTransform, currentMse, .ok newMse⟩
    else
      ⟨newTransformed, newTransform, newMse,
        .error (.iterationDidNotConverge rmc.2.1 rmc.2.2)⟩

/-- The iteration loop of `icp` (`for iteration_num in 0..max_iterations`):
a convergent `icp_iteration` returns the success; any iteration error
(including `NoNearestNeighbour`, which the source's `if let Ok` silently
swallows) continues with the mutated state; an exhausted budget yields
`AlrogithmDidNotConverge`.  The second component instruments the run with
the number of `icp_iteration` calls actually executed. -/
def icpLoop {n : Nat} [NeZero n] {Iso : Type} (ops : IsometryOps n Iso)
    (pointsA pointsB : List (Pt n)) (tree : Option (KDTree n))
    (config : ICPConfiguration) :
    Nat → Nat → List (Pt n) → Iso → ℚ →
      (Except (ICPError n) (ICPSuccess Iso)) × Nat
  | 0, _, _, _, _ => (.error .alrogithmDidNotConverge, 0)
  | fuel + 1, iterationNum, transformed, currentTransform, currentMse =>
    let r := icpIteration ops pointsA transformed pointsB tree
      currentTransform currentMse config
    match r.out with
    | .ok mse => (.ok ⟨r.transform, mse, iterationNum⟩, 1)
    | .error _ =>
      let rest := icpLoop ops pointsA pointsB tree config fuel
        (iterationNum + 1) r.transformed r.transform r.currentMse
      (rest.1, rest.2 + 1)

/-- icp of `src/crates/algorithms/src/point_clouds/icp/mod.rs`: the five
precondition checks in source order, then the loop starting from the
untransformed source cloud, the identity transform, and `current_mse`
initialised to the scalar's maximum value (`<T as Bounded>::max_value()`,
the parameter `maxVal` of this exact-rational model; `eps` stands for
`T::default_epsilon()`).  The `is_nan` disjunct of the absolute-threshold
check cannot fire over exact rationals; `icpPreChecksF` below models that
check over a scalar type with a NaN element.  The second component counts
the `icp_iteration` calls executed: every precondition failure performs
none. -/
def icpRun {n : Nat} [NeZero n] {Iso : Type} (ops : IsometryOps n Iso)
    (pointsA pointsB : List (Pt n)) (config : ICPConfiguration)
    (eps maxVal : ℚ) : (Except (ICPError n) (ICPSuccess Iso)) × Nat :=
  if pointsA.isEmpty then (.error .sourcePointCloudEmpty, 0)
  else if pointsB.isEmpty then (.error .targetPointCloudEmpty, 0)
  else if config.maxIterations = 0 then (.error .iterationNumIsZero, 0)
  else if config.mseIntervalThreshold ≤ eps then
    (.error .mseIntervalThreshold, 0)
  else if (config.mseAbsoluteThreshold.map fun thres =>
        decide (thres ≤ eps)).getD false then
    (.error .mseAbsoluteThreshold, 0)
  else
    let tree := if config.useKdTree then some (KDTree.fromList pointsB)
      else none
    icpLoop ops pointsA pointsB tree config config.maxIterations 0
      pointsA ops.identity maxVal

/-- An inert placeholder instance of the isometry interface.  It appears
only in runs that never consult the isometry collaborator at all — the
precondition-failure witness of `icp` (which errors out before the loop)
and mapper pushes with odometry disabled — where the value of the
collaborator is irrelevant to the statement.  Runs in which the transform
update matters use `zeroCovarianceOps` below instead, which agrees with
the source on the calls those runs make. -/
def unitOps (n : Nat) : IsometryOps n Unit :=
  { identity := ()
    transformPoint := fun _ p => p
    updateTransform := fun _ _ _ _ => () }

/-- The value of `f32::MAX`, `(2^24 - 1) * 2^104`, as an exact rational:
the `Bounded::max_value()` the source initialises `current_mse` with. -/
def maxF32 : ℚ := (2 ^ 24 - 1) * 2 ^ 104

/-- The value of `f32::EPSILON`, `2^(-23)`, as an exact rational: the
`T::default_epsilon()` of the precondition checks. -/
def epsF32 : ℚ := 1 / 2 ^ 23

/-- The 2D isometry operations (`IsometryAbstractor<T, 2>` of
`src/crates/algorithms/src/types/isometry.rs`) specialised to the calls
the concrete runs below actually make: every `update_transform` call in
those runs receives the ZERO covariance matrix (the runs' target cloud is
a single point, so the centred target factors of every outer product
vanish — each run's theorem states this as a conjunct) and the identity
accumulated transform.  On such a call the source takes the SVD of the
zero matrix, whose factors `U` and `Vᵗ` are orthogonal, obtains some
orthogonal rotation `R` (determinant-corrected to `+1`), and forms the
translation `mean_b - R · mean_a`; the runs below further have
`mean_a = 0`, so the translation is exactly `mean_b` whatever `R` is.  The
carrier here is the translation vector with `R = I` chosen; every quantity
the theorems assert about these runs (the returned MSE, the converging
iteration index, the iteration count) is invariant under the choice,
because the residual of source point `aᵢ` against the single target point
is `R · (aᵢ - mean_a)`, whose squared norm `|aᵢ - mean_a|²` does not
depend on the orthogonal `R`.  All coordinates involved are small integers
or exact powers of two, so the `f32` run computes the same rationals with
no rounding anywhere. -/
def zeroCovarianceOps : IsometryOps 2 (Pt 2) :=
  { identity := fun _ => 0
    transformPoint := fun t p => fun i => p i + t i
    updateTransform := fun old meanA meanB _ => fun i =>
      (meanB i - meanA i) + old i }

/-- A scalar with an IEEE-style NaN element, for the one precondition of
`icp` whose behaviour depends on NaN: `thres.is_nan() || thres <= epsilon`.
Finite values carry an exact rational. -/
inductive FVal where
  | nan : FVal
  | fin (q : ℚ) : FVal
  deriving DecidableEq

/-- IEEE comparison: any comparison involving NaN is false. -/
def FVal.le : FVal → FVal → Bool
  | .fin a, .fin b => decide (a ≤ b)
  | _, _ => false

def FVal.isNan : FVal → Bool
  | .nan => true
  | .fin _ => false

/-- The configuration fields consumed by the precondition stage, with the
thresholds over the NaN-aware scalar. -/
structure ICPConfigurationF where
  maxIterations : Nat
  mseAbsoluteThreshold : Option FVal
  mseIntervalThreshold : FVal

/-- The precondition stage of `icp`
(`src/crates/algorithms/src/point_clouds/icp/mod.rs`, the five checks
before the loop) over the NaN-aware scalar: the error the run stops with,
or `none` when all checks pass and the iterations would begin.  `eps` is
`T::default_epsilon()`, necessarily finite. -/
def icpPreChecksF (n : Nat) (sourceLen targetLen : Nat)
    (config : ICPConfigurationF) (eps : ℚ) : Option (ICPError n) :=
  if sourceLen = 0 then some .sourcePointCloudEmpty
  else if targetLen = 0 then some .targetPointCloudEmpty
  else if config.maxIterations = 0 then some .iterationNumIsZero
  else if config.mseIntervalThreshold.le (.fin eps) then
    some .mseIntervalThreshold
  else if (config.mseAbsoluteThreshold.map fun t =>
        t.isNan || t.le (.fin eps)).getD false then
    some .mseAbsoluteThreshold
  else none

/-- C3: `icp` checks its preconditions before running any iteration, each
violation mapping to its own error variant in source order, and performs no
iteration in any such case (the instrumented call count is `0`): empty
source cloud, empty target cloud, zero iteration budget, interval threshold
at or below machine epsilon, absolute threshold present and at or below
machine epsilon — or NaN, which the exact-rational run cannot express and
the NaN-aware precondition stage `icpPreChecksF` settles. -/
theorem icp_precondition_errors :
    (∀ (n : Nat) [NeZero n] (Iso : Type) (ops : IsometryOps n Iso)
        (pointsA pointsB : List (Pt n)) (config : ICPConfiguration)
        (eps maxVal : ℚ),
      (pointsA = [] →
        icpRun ops pointsA pointsB config eps maxVal =
          (.error .sourcePointCloudEmpty, 0)) ∧
      (pointsA ≠ [] → pointsB = [] →
        icpRun ops pointsA pointsB config eps maxVal =
          (.error .targetPointCloudEmpty, 0)) ∧
      (pointsA ≠ [] → pointsB ≠ [] → config.maxIterations = 0 →
        icpRun ops pointsA pointsB config eps maxVal =
          (.error .iterationNumIsZero, 0)) ∧
      (pointsA ≠ [] → pointsB ≠ [] → config.maxIterations ≠ 0 →
        config.mseIntervalThreshold ≤ eps →
        icpRun ops pointsA pointsB config eps maxVal =
          (.error .mseIntervalThreshold, 0)) ∧
      (pointsA ≠ [] → pointsB ≠ [] → config.maxIterations ≠ 0 →
        ¬ config.mseIntervalThreshold ≤ eps →
        ∀ t, config.mseAbsoluteThreshold = some t → t ≤ eps →
        icpRun ops pointsA pointsB config eps maxVal =
          (.error .mseAbsoluteThreshold, 0))) ∧
    (∀ (n sourceLen targetLen : Nat) (config : ICPConfigurationF) (eps : ℚ),
      sourceLen ≠ 0 → targetLen ≠ 0 → config.maxIterations ≠ 0 →
      config.mseIntervalThreshold.le (.fin eps) = false →
      ∀ t, config.mseAbsoluteThreshold = some t →
      (t.isNan || t.le (.fin eps)) = true →
      icpPreChecksF n sourceLen targetLen config eps =
        some .mseAbsoluteThreshold) := by
  constructor
  · intro n _ Iso ops pointsA pointsB config eps maxVal
    refine ⟨?_, ?_, ?_, ?_, ?_⟩
    · intro h
      simp [icpRun, h]
    · intro h1 h2
      simp [icpRun, h1, h2]
    · intro h1 h2 h3
      simp [icpRun, h1, h2, h3]
    · intro h1 h2 h3 h4
      simp [icpRun, h1, h2, h3, h4]
    · intro h1 h2 h3 h4 t ht hle
      simp [icpRun, h1, h2, h3, h4, ht, hle]
  · intro n sourceLen targetLen config eps h1 h2 h3 h4 t ht habs
    simp [icpPreChecksF, h1, h2, h3, h4, ht, habs]

/-- Witness for C3: the empty-source clause on a concrete non-empty target. -/
theorem icp_precondition_errors_witness :
    (([] : List (Pt 2)) = []) ∧
    icpRun (unitOps 2) [] [![1, 1]]
        ⟨false, 5, none, 1/100⟩ (1/1000000) 1000 =
      (.error .sourcePointCloudEmpty, 0) :=
  ⟨rfl, (icp_precondition_errors.1 2 Unit (unitOps 2) [] [![1, 1]]
      ⟨false, 5, none, 1/100⟩ (1/1000000) 1000).1 rfl⟩

theorem icpIteration_transform_eq {n : Nat} [NeZero n] {Iso : Type}
    (ops : IsometryOps n Iso) (pointsA transformed pointsB : List (Pt n))
    (tree : Option (KDTree n)) (currentTransform : Iso) (currentMse : ℚ)
    (config : ICPConfiguration) (closest : List (Pt n))
    (hcp : closestPointsOf tree pointsB transformed = some closest) :
    (icpIteration ops pointsA transformed pointsB tree currentTransform
      currentMse config).transform =
    ops.updateTransform currentTransform
      (getRotationMatrixAndCenteroids transformed closest).2.1
      (getRotationMatrixAndCenteroids transformed closest).2.2
      (getRotationMatrixAndCenteroids transformed closest).1 := by
  rw [icpIteration, hcp]
  dsimp only
  split <;> rfl

theorem icpIteration_ok_mse {n : Nat} [NeZero n] {Iso : Type}
    (ops : IsometryOps n Iso) (pointsA transformed pointsB : List (Pt n))
    (tree : Option (KDTree n)) (currentTransform : Iso) (currentMse : ℚ)
    (config : ICPConfiguration) (m : ℚ)
    (h : (icpIteration ops pointsA transformed pointsB tree currentTransform
      currentMse config).out = .ok m) :
    ∃ closest, closestPointsOf tree pointsB transformed = some closest ∧
      m = calculateMse (pointsA.map (ops.transformPoint
        (icpIteration ops pointsA transformed pointsB tree currentTransform
          currentMse config).transform)) closest := by
  rcases hcp : closestPointsOf tree pointsB transformed with _ | closest
  · rw [icpIteration] at h
    rw [hcp] at h
    cases h
  · refine ⟨closest, rfl, ?_⟩
    rw [icpIteration_transform_eq ops pointsA transformed pointsB tree
      currentTransform currentMse config closest hcp]
    rw [icpIteration] at h
    rw [hcp] at h
    dsimp only at h
    split at h
    · dsimp only at h
      cases h
      rfl
    · dsimp only at h
      cases h

theorem icpLoop_ok_mse {n : Nat} [NeZero n] {Iso : Type}
    (ops : IsometryOps n Iso) (pointsA pointsB : List (Pt n))
    (tree : Option (KDTree n)) (config : ICPConfiguration) :
    ∀ (fuel iterationNum : Nat) (transformed : List (Pt n))
      (currentTransform : Iso) (currentMse : ℚ) (s : ICPSuccess Iso),
      (icpLoop ops pointsA pointsB tree config fuel iterationNum transformed
        currentTransform currentMse).1 = .ok s →
      ∃ pre closest, closestPointsOf tree pointsB pre = some closest ∧
        s.mse = calculateMse
          (pointsA.map (ops.transformPoint s.transform)) closest := by
  intro fuel
  induction fuel with
  | zero =>
    intro iterationNum transformed currentTransform currentMse s h
    simp [icpLoop] at h
  | succ fuel ih =>
    intro iterationNum transformed currentTransform currentMse s h
    rw [icpLoop] at h
    rcases hout : (icpIteration ops pointsA transformed pointsB tree
        currentTransform currentMse config).out with e | m
    · rw [hout] at h
      dsimp only at h
      exact ih (iterationNum + 1) _ _ _ s h
    · rw [hout] at h
      dsimp only at h
      cases h
      obtain ⟨closest, hcp, hm⟩ := icpIteration_ok_mse ops pointsA transformed
        pointsB tree currentTransform currentMse config m hout
      exact ⟨transformed, closest, hcp, hm⟩

/-- C4 (amended): on every converging run, the `mse` field of `ICPSuccess`
equals `calculate_mse` — the SUM of the squared Euclidean distances —
between the source points as re-transformed by the returned accumulated
transform (the newly transformed points of the converging iteration) and
that iteration's matched neighbours.  No division by the number of matched
pairs takes place, so the field is not the mean the specification
describes. -/
theorem icp_mse_is_sum_of_squares {n : Nat} [NeZero n] {Iso : Type}
    (ops : IsometryOps n Iso) (pointsA pointsB : List (Pt n))
    (config : ICPConfiguration) (eps maxVal : ℚ) (s : ICPSuccess Iso)
    (c : Nat)
    (h : icpRun ops pointsA pointsB config eps maxVal = (.ok s, c)) :
    ∃ pre closest,
      closestPointsOf (if config.useKdTree then some (KDTree.fromList pointsB)
        else none) pointsB pre = some closest ∧
      s.mse = calculateMse
        (pointsA.map (ops.transformPoint s.transform)) closest := by
  rw [icpRun] at h
  split at h
  · exact absurd (congrArg Prod.fst h) (by simp)
  · split at h
    · exact absurd (congrArg Prod.fst h) (by simp)
    · split at h
      · exact absurd (congrArg Prod.fst h) (by simp)
      · split at h
        · exact absurd (congrArg Prod.fst h) (by simp)
        · split at h
          · exact absurd (congrArg Prod.fst h) (by simp)
          · dsimp only at h
            exact icpLoop_ok_mse ops pointsA pointsB _ config
              config.maxIterations 0 pointsA ops.identity maxVal s
              (by rw [h])

/-- C4 counterexample: a concrete converging run the `f32` program performs
exactly.  The source cloud is `{(-1, 0), (1, 0)}` (centroid `0`), the
target cloud the single point `(5, 0)`, the absolute threshold `9`,
`epsilon` and `max_value` the true `f32` constants.  Both correspondences
are the single target point (stated as the second conjunct), so the
cross-covariance matrix is zero (first conjunct) and `zeroCovarianceOps`
reproduces the source's transform update on the run's only
`update_transform` call; every value below is exact in `f32` and invariant
under the orthogonal factor of the zero-matrix SVD.  The run converges on
its first iteration (the instrumented count `1` confirms a single
`icp_iteration` call) with `mse = 2`, the SUM of the two squared residuals
`1 + 1` — while the mean over the two matched pairs is `1 ≠ 2`: the `mse`
field is not the mean the claim asserts. -/
theorem icp_mse_not_mean_counterexample :
    (getRotationMatrixAndCenteroids [![(-1 : ℚ), 0], ![1, 0]]
      [![5, 0], ![5, 0]]).1 = 0 ∧
    closestPointsOf (none : Option (KDTree 2)) [![(5 : ℚ), 0]]
      [![(-1 : ℚ), 0], ![1, 0]] = some [![5, 0], ![5, 0]] ∧
    icpRun zeroCovarianceOps [![(-1 : ℚ), 0], ![1, 0]] [![5, 0]]
        ⟨false, 5, some 9, 1/100⟩ epsF32 maxF32 =
      (.ok ⟨![5, 0], 2, 0⟩, 1) ∧
    (distSq (![4, 0] : Pt 2) ![5, 0] + distSq (![6, 0] : Pt 2) ![5, 0]) / 2
      = 1 ∧
    (2 : ℚ) ≠ 1 := by
  refine ⟨?_, ?_, ?_, ?_, by norm_num⟩
  · ext i j
    fin_cases i <;> fin_cases j <;>
      norm_num [getRotationMatrixAndCenteroids, outerProduct,
        calculatePointCloudCenter, Matrix.add_apply, Matrix.zero_apply]
  · norm_num [closestPointsOf, findNearestNeighbourNaive, fcpLoop,
      WithTop.coe_lt_top]
  · rw [icpRun]
    norm_num [epsF32]
    rw [show (5 : Nat) = 4 + 1 from rfl, icpLoop]
    norm_num [icpIteration, closestPointsOf, findNearestNeighbourNaive,
      fcpLoop, calculateMse, distSq, calculatePointCloudCenter,
      getRotationMatrixAndCenteroids, Fin.sum_univ_two, zeroCovarianceOps,
      WithTop.coe_lt_top, abs_lt]
    funext i
    fin_cases i <;> norm_num
  · norm_num [distSq, Fin.sum_univ_two]

/-- Witness for C4's amended statement: the theorem applied to the same
concrete converging run. -/
theorem icp_mse_is_sum_of_squares_witness :
    icpRun zeroCovarianceOps [![(-1 : ℚ), 0], ![1, 0]] [![5, 0]]
        ⟨false, 5, some 9, 1/100⟩ epsF32 maxF32 =
      (.ok ⟨![5, 0], 2, 0⟩, 1) ∧
    (∃ pre closest,
      closestPointsOf (if (⟨false, 5, some 9, 1/100⟩ :
          ICPConfiguration).useKdTree
        then some (KDTree.fromList [![5, 0]]) else none) [![5, 0]] pre =
          some closest ∧
      (2 : ℚ) = calculateMse
        (([![(-1 : ℚ), 0], ![1, 0]] : List (Pt 2)).map
          (zeroCovarianceOps.transformPoint ![5, 0])) closest) := by
  have hrun : icpRun zeroCovarianceOps [![(-1 : ℚ), 0], ![1, 0]] [![5, 0]]
      ⟨false, 5, some 9, 1/100⟩ epsF32 maxF32 =
      (.ok ⟨![5, 0], 2, 0⟩, 1) := by
    rw [icpRun]
    norm_num [epsF32]
    rw [show (5 : Nat) = 4 + 1 from rfl, icpLoop]
    norm_num [icpIteration, closestPointsOf, findNearestNeighbourNaive,
      fcpLoop, calculateMse, distSq, calculatePointCloudCenter,
      getRotationMatrixAndCenteroids, Fin.sum_univ_two, zeroCovarianceOps,
      WithTop.coe_lt_top, abs_lt]
    funext i
    fin_cases i <;> norm_num
  exact ⟨hrun, icp_mse_is_sum_of_squares zeroCovarianceOps
    [![(-1 : ℚ), 0], ![1, 0]] [![5, 0]] ⟨false, 5, some 9, 1/100⟩
    epsF32 maxF32 ⟨![5, 0], 2, 0⟩ 1 hrun⟩

theorem icpIteration_ok_interval {n : Nat} [NeZero n] {Iso : Type}
    (ops : IsometryOps n Iso) (pointsA transformed pointsB : List (Pt n))
    (tree : Option (KDTree n)) (currentTransform : Iso) (currentMse : ℚ)
    (config : ICPConfiguration) (m : ℚ)
    (habs : config.mseAbsoluteThreshold = none)
    (h : (icpIteration ops pointsA transformed pointsB tree currentTransform
      currentMse config).out = .ok m) :
    |currentMse - m| < config.mseIntervalThreshold := by
  rcases hcp : closestPointsOf tree pointsB transformed with _ | closest
  · rw [icpIteration, hcp] at h
    cases h
  · rw [icpIteration, hcp] at h
    dsimp only at h
    rw [habs] at h
    simp only [Option.map_none', Option.getD_none, Bool.false_or] at h
    split at h
    · dsimp only at h
      cases h
      exact of_decide_eq_true (by assumption)
    · dsimp only at h
      cases h

theorem icpLoop_ok_iterationNum_ge {n : Nat} [NeZero n] {Iso : Type}
    (ops : IsometryOps n Iso) (pointsA pointsB : List (Pt n))
    (tree : Option (KDTree n)) (config : ICPConfiguration) :
    ∀ (fuel iterationNum : Nat) (transformed : List (Pt n))
      (currentTransform : Iso) (currentMse : ℚ) (s : ICPSuccess Iso),
      (icpLoop ops pointsA pointsB tree config fuel iterationNum transformed
        currentTransform currentMse).1 = .ok s →
      iterationNum ≤ s.iterationNum := by
  intro fuel
  induction fuel with
  | zero =>
    intro iterationNum transformed currentTransform currentMse s h
    simp [icpLoop] at h
  | succ fuel ih =>
    intro iterationNum transformed currentTransform currentMse s h
    rw [icpLoop] at h
    rcases hout : (icpIteration ops pointsA transformed pointsB tree
        currentTransform currentMse config).out with e | m
    · rw [hout] at h
      dsimp only at h
      exact le_trans (Nat.le_succ _) (ih (iterationNum + 1) _ _ _ s h)
    · rw [hout] at h
      dsimp only at h
      cases h
      exact le_refl _

theorem icpLoop_first_iteration {n : Nat} [NeZero n] {Iso : Type}
    (ops : IsometryOps n Iso) (pointsA pointsB : List (Pt n))
    (tree : Option (KDTree n)) (config : ICPConfiguration)
    (fuel iterationNum : Nat) (transformed : List (Pt n))
    (currentTransform : Iso) (currentMse : ℚ) (s : ICPSuccess Iso)
    (h : (icpLoop ops pointsA pointsB tree config (fuel + 1) iterationNum
      transformed currentTransform currentMse).1 = .ok s)
    (h0 : s.iterationNum = iterationNum) :
    (icpIteration ops pointsA transformed pointsB tree currentTransform
      currentMse config).out = .ok s.mse := by
  rw [icpLoop] at h
  rcases hout : (icpIteration ops pointsA transformed pointsB tree
      currentTransform currentMse config).out with e | m
  · rw [hout] at h
    dsimp only at h
    have := icpLoop_ok_iterationNum_ge ops pointsA pointsB tree config fuel
      (iterationNum + 1) _ _ _ s h
    omega
  · rw [hout] at h
    dsimp only at h
    cases h
    rfl

/-- C8 (amended): `previous_mse` starts at the scalar's maximum value
(`maxVal`), so with no absolute threshold configured, a run converging on
its very first iteration must have a first-iteration MSE within the
interval threshold of that maximum value: `maxVal - threshold < mse`.
Contrapositively, the interval test is false on the first iteration for
every first-iteration MSE at least the threshold below the maximum — but
not, as the claim has it, for EVERY finite MSE: an MSE close enough to the
maximum passes the interval test and converges without any absolute
threshold. -/
theorem icp_first_iteration_interval_convergence {n : Nat} [NeZero n]
    {Iso : Type} (ops : IsometryOps n Iso) (pointsA pointsB : List (Pt n))
    (config : ICPConfiguration) (eps maxVal : ℚ) (s : ICPSuccess Iso)
    (c : Nat) (habs : config.mseAbsoluteThreshold = none)
    (h : icpRun ops pointsA pointsB config eps maxVal = (.ok s, c))
    (h0 : s.iterationNum = 0) :
    maxVal - config.mseIntervalThreshold < s.mse := by
  rw [icpRun] at h
  split at h
  · exact absurd (congrArg Prod.fst h) (by simp)
  · split at h
    · exact absurd (congrArg Prod.fst h) (by simp)
    · split at h
      · exact absurd (congrArg Prod.fst h) (by simp)
      · rename_i hmi
        split at h
        · exact absurd (congrArg Prod.fst h) (by simp)
        · split at h
          · exact absurd (congrArg Prod.fst h) (by simp)
          · dsimp only at h
            obtain ⟨k, hk⟩ := Nat.exists_eq_succ_of_ne_zero hmi
            rw [hk] at h
            have hfirst := icpLoop_first_iteration ops pointsA pointsB _
              config k 0 pointsA ops.identity maxVal s (by rw [h]) h0
            have hint := icpIteration_ok_interval ops pointsA pointsA
              pointsB _ ops.identity maxVal config s.mse habs hfirst
            have habs2 := le_abs_self (maxVal - s.mse)
            linarith

/-- C8 counterexample: a concrete run the `f32` program performs exactly,
with a valid configuration (interval threshold `f32::MAX`, well above
epsilon; NO absolute threshold) that converges on its very first iteration
through the interval test.  The source cloud is `{(-2^52, 0), (2^52, 0)}`
(centroid `0`), the target the single point `(0, 0)`: both correspondences
are that point (second conjunct), the cross-covariance is zero (first
conjunct), so `zeroCovarianceOps` reproduces the transform update, the
translation is the zero vector, and the first-iteration MSE is the finite
`2^104 + 2^104 = 2^105`.  Every quantity is an exact `f32` value — in
particular `f32::MAX - 2^105 = (2^24 - 3) * 2^104` is representable, so
the interval test `|f32::MAX - 2^105| < f32::MAX` is computed without any
rounding and passes (last conjunct).  The claim that the interval test is
false on the first iteration for every valid configuration and finite
first-iteration MSE, and that first-iteration convergence can only come
from the absolute threshold, is therefore false. -/
theorem icp_first_iteration_interval_counterexample :
    (getRotationMatrixAndCenteroids [![-(2 ^ 52 : ℚ), 0], ![2 ^ 52, 0]]
      [![0, 0], ![0, 0]]).1 = 0 ∧
    closestPointsOf (none : Option (KDTree 2)) [![(0 : ℚ), 0]]
      [![-(2 ^ 52 : ℚ), 0], ![2 ^ 52, 0]] = some [![0, 0], ![0, 0]] ∧
    icpRun zeroCovarianceOps [![-(2 ^ 52 : ℚ), 0], ![2 ^ 52, 0]] [![0, 0]]
        ⟨false, 5, none, maxF32⟩ epsF32 maxF32 =
      (.ok ⟨![0, 0], 2 ^ 105, 0⟩, 1) ∧
    epsF32 < maxF32 ∧ |maxF32 - 2 ^ 105| < maxF32 := by
  refine ⟨?_, ?_, ?_, by norm_num [epsF32, maxF32], ?_⟩
  · ext i j
    fin_cases i <;> fin_cases j <;>
      norm_num [getRotationMatrixAndCenteroids, outerProduct,
        calculatePointCloudCenter, Matrix.add_apply, Matrix.zero_apply]
  · norm_num [closestPointsOf, findNearestNeighbourNaive, fcpLoop,
      WithTop.coe_lt_top]
  · rw [icpRun]
    norm_num [epsF32, maxF32]
    rw [show (5 : Nat) = 4 + 1 from rfl, icpLoop]
    norm_num [icpIteration, closestPointsOf, findNearestNeighbourNaive,
      fcpLoop, calculateMse, distSq, calculatePointCloudCenter,
      getRotationMatrixAndCenteroids, Fin.sum_univ_two, zeroCovarianceOps,
      WithTop.coe_lt_top, abs_lt, maxF32]
    funext i
    fin_cases i <;> norm_num
  · rw [abs_lt]
    constructor <;> norm_num [maxF32]

/-- Witness for C8's amended statement: the theorem applied to the same
concrete run; the returned MSE `2^105` indeed exceeds
`f32::MAX - f32::MAX = 0`. -/
theorem icp_first_iteration_interval_convergence_witness :
    icpRun zeroCovarianceOps [![-(2 ^ 52 : ℚ), 0], ![2 ^ 52, 0]] [![0, 0]]
        ⟨false, 5, none, maxF32⟩ epsF32 maxF32 =
      (.ok ⟨![0, 0], 2 ^ 105, 0⟩, 1) ∧
    maxF32 - maxF32 < 2 ^ 105 := by
  have hrun : icpRun zeroCovarianceOps
      [![-(2 ^ 52 : ℚ), 0], ![2 ^ 52, 0]] [![0, 0]]
      ⟨false, 5, none, maxF32⟩ epsF32 maxF32 =
      (.ok ⟨![0, 0], 2 ^ 105, 0⟩, 1) := by
    rw [icpRun]
    norm_num [epsF32, maxF32]
    rw [show (5 : Nat) = 4 + 1 from rfl, icpLoop]
    norm_num [icpIteration, closestPointsOf, findNearestNeighbourNaive,
      fcpLoop, calculateMse, distSq, calculatePointCloudCenter,
      getRotationMatrixAndCenteroids, Fin.sum_univ_two, zeroCovarianceOps,
      WithTop.coe_lt_top, abs_lt, maxF32]
    funext i
    fin_cases i <;> norm_num
  exact ⟨hrun, icp_first_iteration_interval_convergence zeroCovarianceOps
    [![-(2 ^ 52 : ℚ), 0], ![2 ^ 52, 0]] [![0, 0]]
    ⟨false, 5, none, maxF32⟩ epsF32 maxF32
    ⟨![0, 0], 2 ^ 105, 0⟩ 1 rfl hrun rfl⟩

/-- The last dimension index, the column the determinant correction
negates. -/
def lastIdx (n : Nat) [NeZero n] : Fin n :=
  ⟨n - 1, Nat.sub_lt (Nat.pos_of_ne_zero (NeZero.ne n)) Nat.one_pos⟩

/-- Negation of the last column of a matrix. -/
def negLastColumn {K : Type} [LinearOrderedField K] {n : Nat} [NeZero n]
    (u : Matrix (Fin n) (Fin n) K) : Matrix (Fin n) (Fin n) K :=
  Matrix.of fun i j => if j = lastIdx n then -u i j else u i j

/-- Modelled from the spec: `verify_rotation_matrix_determinant`, the
determinant-correction step of the SVD alignment
(`src/crates/algorithms/src/types/isometry.rs` and `types/mod.rs` call it
on the SVD factors `svd.u` and `svd.v_t`, but the function's own body,
`src/crates/algorithms/src/utils/mod.rs` in the repository, is not among
the sources at hand).  Specification §4.2 steps 2-3: form `R = U · Vᵗ`;
if `det(R) < 0`, negate the last column of `U` and recompute `R = U · Vᵗ`. -/
def verifyRotationMatrixDeterminant {K : Type} [LinearOrderedField K]
    {n : Nat} [NeZero n] (u vt : Matrix (Fin n) (Fin n) K) :
    Matrix (Fin n) (Fin n) K :=
  let r := u * vt
  if r.det < 0 then negLastColumn u * vt else r

theorem negLastColumn_det {K : Type} [LinearOrderedField K] {n : Nat}
    [NeZero n] (u : Matrix (Fin n) (Fin n) K) :
    (negLastColumn u).det = -u.det := by
  have heq : negLastColumn u =
      u * Matrix.diagonal (fun j => if j = lastIdx n then (-1 : K) else 1) := by
    ext i j
    rw [Matrix.mul_diagonal]
    by_cases hj : j = lastIdx n <;> simp [negLastColumn, hj]
  rw [heq, Matrix.det_mul, Matrix.det_diagonal]
  have hprod : (∏ j : Fin n, if j = lastIdx n then (-1 : K) else 1) = -1 := by
    rw [Finset.prod_ite_eq' Finset.univ (lastIdx n) (fun _ => (-1 : K))]
    simp
  rw [hprod]
  ring

/-- C6: the rotation produced by the determinant-correction step always has
determinant `+1`, for every pair of orthogonal SVD factors — including
those whose raw product `U · Vᵗ` has determinant `-1` (exactly the case the
correction rewrites). -/
theorem verify_rotation_determinant_proper {K : Type} [LinearOrderedField K]
    {n : Nat} [NeZero n] (u vt : Matrix (Fin n) (Fin n) K)
    (hu : u.transpose * u = 1) (hv : vt.transpose * vt = 1) :
    (verifyRotationMatrixDeterminant u vt).det = 1 := by
  have hdu : u.det * u.det = 1 := by
    have h := congrArg Matrix.det hu
    rwa [Matrix.det_mul, Matrix.det_transpose, Matrix.det_one] at h
  have hdv : vt.det * vt.det = 1 := by
    have h := congrArg Matrix.det hv
    rwa [Matrix.det_mul, Matrix.det_transpose, Matrix.det_one] at h
  have hd : (u.det * vt.det) * (u.det * vt.det) = 1 := by
    calc (u.det * vt.det) * (u.det * vt.det)
        = (u.det * u.det) * (vt.det * vt.det) := by ring
      _ = 1 := by rw [hdu, hdv, mul_one]
  rcases mul_self_eq_one_iff.mp hd with hone | hmone
  · have hnotlt : ¬ (u * vt).det < 0 := by
      rw [Matrix.det_mul, hone]
      norm_num
    rw [verifyRotationMatrixDeterminant]
    simp only [if_neg hnotlt]
    rw [Matrix.det_mul]
    exact hone
  · have hlt : (u * vt).det < 0 := by
      rw [Matrix.det_mul, hmone]
      norm_num
    rw [verifyRotationMatrixDeterminant]
    simp only [if_pos hlt]
    rw [Matrix.det_mul, negLastColumn_det]
    linarith

/-- Witness for C6: the adversarial reflection `U = diag(1, -1)`, `Vᵗ = 1`,
whose raw product has determinant `-1`; the corrected rotation has
determinant `+1`. -/
theorem verify_rotation_determinant_proper_witness :
    ((!![1, 0; 0, -1] : Matrix (Fin 2) (Fin 2) ℚ).transpose *
        !![1, 0; 0, -1] = 1) ∧
    ((1 : Matrix (Fin 2) (Fin 2) ℚ).transpose * 1 = 1) ∧
    ((!![1, 0; 0, -1] : Matrix (Fin 2) (Fin 2) ℚ) * 1).det = -1 ∧
    (verifyRotationMatrixDeterminant (!![1, 0; 0, -1] : Matrix (Fin 2) (Fin 2) ℚ)
      1).det = 1 := by
  have hu : (!![1, 0; 0, -1] : Matrix (Fin 2) (Fin 2) ℚ).transpose *
      !![1, 0; 0, -1] = 1 := by
    ext i j
    fin_cases i <;> fin_cases j <;>
      simp [Matrix.mul_apply, Fin.sum_univ_two, Matrix.one_apply,
        Matrix.transpose, Matrix.vecHead, Matrix.vecTail]
  have hv : ((1 : Matrix (Fin 2) (Fin 2) ℚ).transpose * 1) = 1 := by
    simp
  refine ⟨hu, hv, ?_, verify_rotation_determinant_proper _ _ hu hv⟩
  rw [Matrix.mul_one, Matrix.det_fin_two]
  norm_num

/-- The mapper state of `src/crates/suites/src/hector_mapper/mod.rs`.  The
pose (`nalgebra::Similarity`) and its composition with an ICP result are
external collaborators, abstracted by the type `Pose` and the functions
passed to `pushPointCloud`. -/
structure HectorMapper (n : Nat) (Pose : Type) where
  gridMap : GridMap n
  resolution : ℚ
  withOdometry : Bool
  currentPose : Pose
  lastPointCloud : List (Pt n)
  frameIndex : Nat

/-- The fixed ICP configuration of `push_point_cloud`:
`ICPConfiguration::builder().with_kd_tree(true).with_max_iterations(20)
.with_mse_interval_threshold(0.01).build()` (builder defaults leave the
absolute threshold unset). -/
def hectorIcpConfig : ICPConfiguration := ⟨true, 20, none, 1/100⟩

/-- The odometry block of `push_point_cloud` (lines 67-87): when odometry is
on and this is a new frame, register `last_point_cloud` against the
incoming cloud; on success compose the result into the pose (the external
`append_translation_mut` / `append_rotation_wrt_center_mut`, abstracted as
`applyIcpResult`), on failure log and keep the pose; either way store the
incoming cloud as the new `last_point_cloud`. -/
def HectorMapper.pushOdometry {n : Nat} [NeZero n] {Iso Pose : Type}
    (ops : IsometryOps n Iso) (applyIcpResult : Pose → ICPSuccess Iso → Pose)
    (eps maxVal : ℚ) (m : HectorMapper n Pose) (pointCloud : List (Pt n))
    (isNewFrame : Bool) : HectorMapper n Pose :=
  if m.withOdometry && isNewFrame then
    let m0 :=
      if !m.lastPointCloud.isEmpty then
        match (icpRun ops m.lastPointCloud pointCloud hectorIcpConfig
            eps maxVal).1 with
        | .ok res => { m with currentPose := applyIcpResult m.currentPose res }
        | .error _ => m
      else m
    { m0 with lastPointCloud := pointCloud }
  else m

/-- push_point_cloud of `src/crates/suites/src/hector_mapper/mod.rs`: the
odometry block, then the frame-index advance with wraparound from 255 back
to 1.  The ray-casting block that would write the transformed points into
the grid map (source lines 96-107) is commented out in the source, so no
grid update is modelled: `push_point_cloud` leaves `grid_map` untouched. -/
def HectorMapper.pushPointCloud {n : Nat} [NeZero n] {Iso Pose : Type}
    (ops : IsometryOps n Iso) (applyIcpResult : Pose → ICPSuccess Iso → Pose)
    (eps maxVal : ℚ) (m : HectorMapper n Pose) (pointCloud : List (Pt n))
    (isNewFrame : Bool) : HectorMapper n Pose :=
  let m1 := m.pushOdometry ops applyIcpResult eps maxVal pointCloud isNewFrame
  if isNewFrame then
    { m1 with frameIndex := if m1.frameIndex = 255 then 1 else m1.frameIndex + 1 }
  else m1

/-- The frame index the builder starts every mapper with
(`HectorMapperBuilder::default`, `frame_index: 1`, preserved by `build`). -/
def initialFrameIndex : Nat := 1

theorem pushOdometry_gridMap {n : Nat} [NeZero n] {Iso Pose : Type}
    (ops : IsometryOps n Iso) (applyIcpResult : Pose → ICPSuccess Iso → Pose)
    (eps maxVal : ℚ) (m : HectorMapper n Pose) (pointCloud : List (Pt n))
    (isNewFrame : Bool) :
    (m.pushOdometry ops applyIcpResult eps maxVal pointCloud
      isNewFrame).gridMap = m.gridMap := by
  rw [HectorMapper.pushOdometry]
  repeat' first
    | rfl
    | split

theorem pushOdometry_frameIndex {n : Nat} [NeZero n] {Iso Pose : Type}
    (ops : IsometryOps n Iso) (applyIcpResult : Pose → ICPSuccess Iso → Pose)
    (eps maxVal : ℚ) (m : HectorMapper n Pose) (pointCloud : List (Pt n))
    (isNewFrame : Bool) :
    (m.pushOdometry ops applyIcpResult eps maxVal pointCloud
      isNewFrame).frameIndex = m.frameIndex := by
  rw [HectorMapper.pushOdometry]
  repeat' first
    | rfl
    | split

/-- C2 (evaluation of the code): `push_point_cloud` never modifies the grid
map — for every mapper state, every point cloud (in particular every
non-empty one) and either flag value, the grid map after the call is the
grid map before it.  The claim expects the transformed points to be
ray-cast into `free_update` and `occupied_update` calls; that block is
commented out in the source, so the occupancy grid is never updated. -/
theorem pushPointCloud_gridMap_unchanged {n : Nat} [NeZero n]
    {Iso Pose : Type} (ops : IsometryOps n Iso)
    (applyIcpResult : Pose → ICPSuccess Iso → Pose) (eps maxVal : ℚ)
    (m : HectorMapper n Pose) (pointCloud : List (Pt n))
    (isNewFrame : Bool) :
    (m.pushPointCloud ops applyIcpResult eps maxVal pointCloud
      isNewFrame).gridMap = m.gridMap := by
  rw [HectorMapper.pushPointCloud]
  split
  · exact pushOdometry_gridMap ops applyIcpResult eps maxVal m pointCloud
      isNewFrame
  · exact pushOdometry_gridMap ops applyIcpResult eps maxVal m pointCloud
      isNewFrame

theorem pushPointCloud_frameIndex {n : Nat} [NeZero n] {Iso Pose : Type}
    (ops : IsometryOps n Iso) (applyIcpResult : Pose → ICPSuccess Iso → Pose)
    (eps maxVal : ℚ) (m : HectorMapper n Pose) (pointCloud : List (Pt n))
    (isNewFrame : Bool) :
    (m.pushPointCloud ops applyIcpResult eps maxVal pointCloud
        isNewFrame).frameIndex =
      if isNewFrame then
        (if m.frameIndex = 255 then 1 else m.frameIndex + 1)
      else m.frameIndex := by
  rw [HectorMapper.pushPointCloud]
  cases isNewFrame <;>
    simp [pushOdometry_frameIndex ops applyIcpResult eps maxVal m pointCloud]

/-- A whole session against a mapper: successive `push_point_cloud` calls,
each with its cloud and `is_new_frame` flag. -/
def pushSeq {n : Nat} [NeZero n] {Iso Pose : Type} (ops : IsometryOps n Iso)
    (applyIcpResult : Pose → ICPSuccess Iso → Pose) (eps maxVal : ℚ)
    (m : HectorMapper n Pose) (calls : List (List (Pt n) × Bool)) :
    HectorMapper n Pose :=
  calls.foldl (fun acc c =>
    acc.pushPointCloud ops applyIcpResult eps maxVal c.1 c.2) m

/-- C9: the frame index starts at the builder's `1`, a push with
`is_new_frame` advances it by one with wraparound from 255 back to 1 and
otherwise leaves it alone, and in every state reachable by any sequence of
pushes from a state in range it stays in `1..=255` — the sentinel `0` is
never taken. -/
theorem frameIndex_range {n : Nat} [NeZero n] {Iso Pose : Type}
    (ops : IsometryOps n Iso) (applyIcpResult : Pose → ICPSuccess Iso → Pose)
    (eps maxVal : ℚ) :
    initialFrameIndex = 1 ∧
    (∀ (m : HectorMapper n Pose) (pointCloud : List (Pt n)) (b : Bool),
      (m.pushPointCloud ops applyIcpResult eps maxVal pointCloud b).frameIndex
        = if b then (if m.frameIndex = 255 then 1 else m.frameIndex + 1)
          else m.frameIndex) ∧
    (∀ (m : HectorMapper n Pose) (calls : List (List (Pt n) × Bool)),
      1 ≤ m.frameIndex → m.frameIndex ≤ 255 →
      1 ≤ (pushSeq ops applyIcpResult eps maxVal m calls).frameIndex ∧
      (pushSeq ops applyIcpResult eps maxVal m calls).frameIndex ≤ 255) := by
  refine ⟨rfl, fun m pointCloud b =>
    pushPointCloud_frameIndex ops applyIcpResult eps maxVal m pointCloud b,
    ?_⟩
  intro m calls
  induction calls generalizing m with
  | nil => intro h1 h2; exact ⟨h1, h2⟩
  | cons c cs ih =>
    intro h1 h2
    have hstep := pushPointCloud_frameIndex ops applyIcpResult eps maxVal m
      c.1 c.2
    have hnext : 1 ≤ (m.pushPointCloud ops applyIcpResult eps maxVal c.1
          c.2).frameIndex ∧
        (m.pushPointCloud ops applyIcpResult eps maxVal c.1 c.2).frameIndex
          ≤ 255 := by
      rw [hstep]
      cases hb : c.2 with
      | false => simpa using ⟨h1, h2⟩
      | true =>
        by_cases h255 : m.frameIndex = 255
        · simp [h255]
        · simp [h255]
          omega
    exact ih _ hnext.1 hnext.2

/-- Witness for C9: one new-frame push on a freshly built mapper advances
the frame index from `1` to `2`, inside `1..=255`. -/
theorem frameIndex_range_witness :
    (1 : Nat) ≤ 1 ∧ (1 : Nat) ≤ 255 ∧
    (1 ≤ (pushSeq (unitOps 1) (fun (p : Unit) (_ : ICPSuccess Unit) => p)
        1 1 ⟨GridMap.create 1 ![1] 1 1 1, 1, false, (), [], 1⟩
        [([], true)]).frameIndex ∧
      (pushSeq (unitOps 1) (fun (p : Unit) (_ : ICPSuccess Unit) => p)
        1 1 ⟨GridMap.create 1 ![1] 1 1 1, 1, false, (), [], 1⟩
        [([], true)]).frameIndex ≤ 255) :=
  ⟨le_refl 1, by omega,
    (frameIndex_range (unitOps 1) (fun (p : Unit) (_ : ICPSuccess Unit) => p)
      1 1).2.2 ⟨GridMap.create 1 ![1] 1 1 1, 1, false, (), [], 1⟩
      [([], true)] (le_refl 1) (by decide)⟩

/-- Concrete evaluation for C2: pushing a non-empty cloud as a new frame
into a freshly built mapper leaves the grid map exactly as it was. -/
theorem pushPointCloud_gridMap_unchanged_witness :
    ((⟨GridMap.create 2 ![2, 2] 1 1 10, 1, false, (), [], 1⟩ :
        HectorMapper 2 Unit).pushPointCloud (unitOps 2)
      (fun (p : Unit) (_ : ICPSuccess Unit) => p) 1 1 [![1, 1]]
      true).gridMap = GridMap.create 2 ![2, 2] 1 1 10 :=
  pushPointCloud_gridMap_unchanged (unitOps 2)
    (fun (p : Unit) (_ : ICPSuccess Unit) => p) 1 1
    ⟨GridMap.create 2 ![2, 2] 1 1 10, 1, false, (), [], 1⟩ [![1, 1]] true
